import Mathlib

/-!
Shallow embedding of the PPE-detection core (src/src/core/detector.py and
src/src/config/settings.py).

Conventions of the embedding:
* Python floats are modelled as rationals (`ℚ`).
* A Python `ZeroDivisionError` raised by `calculate_iou` (float division by a
  zero union) is modelled as `none`; callers that invoke `calculate_iou`
  propagate the exception, hence return `Option` as well.
* The Python `defaultdict(list)` built by `assign_ppe_to_persons` is modelled
  as the list of `(person id, item)` append events in execution order: a key
  is present in the dict exactly when at least one pair with that id occurs.
* The Python dict returned by `calculate_ppe_scores` is modelled as the
  association list of `(id, score)` writes in person order; `List.lookup`
  mirrors dict lookup (for duplicate ids the stored score depends only on the
  id, so first-write lookup and Python's last-write-wins dict agree).
* `time.time()` is modelled by an explicit `now` parameter used for every
  timestamp taken during one call.
* The tracker compares `sqrt(dx^2+dy^2) < 50` and keeps a running minimum of
  that square root; since `sqrt` is monotone and all quantities are
  nonnegative, the embedding compares squared distances against `2500 = 50^2`
  and keeps the minimum squared distance, which selects the same track.
-/

/-- A bounding box, stored as in the source as `[x1, y1, x2, y2]`. -/
structure Box where
  x1 : ℚ
  y1 : ℚ
  x2 : ℚ
  y2 : ℚ
deriving DecidableEq

/-- One detection dict: `{'class': ..., 'box': ..., 'confidence': ...}`. -/
structure Detection where
  cls : String
  box : Box
  confidence : ℚ
deriving DecidableEq

/-- A person detection after `track_persons` stamped it with `person['id']`. -/
structure TrackedPerson where
  id : Nat
  det : Detection
deriving DecidableEq

/-- `PPE_WEIGHTS` from src/src/config/settings.py. -/
def PPE_WEIGHTS : List (String × Int) :=
  [("Hardhat", 40), ("Safety Vest", 40), ("Mask", 20)]

/-- `IOU_THRESHOLD` from src/src/config/settings.py. -/
def IOU_THRESHOLD : ℚ := 0

/-- Area of a box, `(box[2]-box[0])*(box[3]-box[1])` as used in the source. -/
def boxArea (b : Box) : ℚ := (b.x2 - b.x1) * (b.y2 - b.y1)

/-- `calculate_iou` from detector.py.  `none` models the `ZeroDivisionError`
Python raises when `union == 0` (float division by zero). -/
def calculate_iou (box1 box2 : Box) : Option ℚ :=
  let x1 := max box1.x1 box2.x1
  let y1 := max box1.y1 box2.y1
  let x2 := min box1.x2 box2.x2
  let y2 := min box1.y2 box2.y2
  if x2 < x1 ∨ y2 < y1 then
    some 0
  else
    let intersection := (x2 - x1) * (y2 - y1)
    let area1 := (box1.x2 - box1.x1) * (box1.y2 - box1.y1)
    let area2 := (box2.x2 - box2.x1) * (box2.y2 - box2.y1)
    let union := area1 + area2 - intersection
    if union = 0 then none else some (intersection / union)

/-- The inner `for person in persons` loop of `assign_ppe_to_persons`,
threading the `(best_iou, best_person)` accumulator (initially `(0, None)`).
A `none` result models the propagated `ZeroDivisionError`. -/
def bestPersonLoop (ppeBox : Box) (thresh : ℚ) :
    List TrackedPerson → ℚ × Option TrackedPerson → Option (ℚ × Option TrackedPerson)
  | [], acc => some acc
  | person :: rest, (bestIou, bestPerson) =>
    match calculate_iou person.det.box ppeBox with
    | none => none
    | some currentIou =>
      if currentIou > bestIou ∧ currentIou ≥ thresh then
        bestPersonLoop ppeBox thresh rest (currentIou, some person)
      else
        bestPersonLoop ppeBox thresh rest (bestIou, bestPerson)

/-- Comparator of `sorted(ppe_items, key=area, reverse=True)`: descending
bounding-box area. -/
def ppeGE (a b : Detection) : Prop := boxArea b.box ≤ boxArea a.box

instance : DecidableRel ppeGE :=
  fun a b => inferInstanceAs (Decidable (boxArea b.box ≤ boxArea a.box))

instance : IsTotal Detection ppeGE :=
  ⟨fun a b => le_total (boxArea b.box) (boxArea a.box)⟩

instance : IsTrans Detection ppeGE :=
  ⟨fun _ _ _ hab hbc => le_trans hbc hab⟩

/-- `sorted(ppe_items, key=lambda x: area(x), reverse=True)`: Python `sorted`
is stable, as is `List.insertionSort`. -/
def sortPpeDesc (items : List Detection) : List Detection :=
  List.insertionSort ppeGE items

/-- The outer `for ppe in ppe_items_sorted` loop: each item is either
appended (as a `(best_person.id, ppe)` event) or dropped. -/
def assignLoop (persons : List TrackedPerson) (thresh : ℚ) :
    List Detection → Option (List (Nat × Detection))
  | [] => some []
  | ppe :: rest => do
    let acc ← bestPersonLoop ppe.box thresh persons (0, none)
    let tail ← assignLoop persons thresh rest
    match acc.2 with
    | some p => some ((p.id, ppe) :: tail)
    | none => some tail

/-- `assign_ppe_to_persons` from detector.py.  The global `IOU_THRESHOLD` it
reads is passed as the parameter `thresh` (the spec treats it as a
configuration input). -/
def assign_ppe_to_persons (persons : List TrackedPerson) (ppe_items : List Detection)
    (thresh : ℚ) : Option (List (Nat × Detection)) :=
  assignLoop persons thresh (sortPpeDesc ppe_items)

/-- `assigned_ppe[pid]`: the items appended under `pid`, in append order. -/
def itemsOf (assigned : List (Nat × Detection)) (pid : Nat) : List Detection :=
  (assigned.filter (fun pr => pr.1 = pid)).map Prod.snd

/-- `pid in assigned_ppe` for the defaultdict model. -/
def hasKey (assigned : List (Nat × Detection)) (pid : Nat) : Bool :=
  assigned.any (fun pr => pr.1 = pid)

/-- The per-person body of `calculate_ppe_scores` before clamping:
`score = 0`, then if `pid in assigned_ppe`, add `PPE_WEIGHTS.get(cls, 0)` for
every assigned item. -/
def personScore (assigned : List (Nat × Detection)) (weights : List (String × Int))
    (pid : Nat) : Int :=
  if hasKey assigned pid then
    (itemsOf assigned pid).foldl (fun s ppe => s + ((weights.lookup ppe.cls).getD 0)) 0
  else 0

/-- `calculate_ppe_scores` from detector.py, with the global `PPE_WEIGHTS`
passed as the `weights` parameter; `scores[pid] = max(0, min(100, score))`. -/
def calculate_ppe_scores (persons : List TrackedPerson)
    (assigned : List (Nat × Detection)) (weights : List (String × Int)) :
    List (Nat × Int) :=
  persons.map (fun p => (p.id, max 0 (min 100 (personScore assigned weights p.id))))

/-- One `self.tracked_persons[pid]` record: `{'center': ..., 'timestamp': ...}`. -/
structure TrackData where
  center : ℚ × ℚ
  timestamp : ℚ
deriving DecidableEq

/-- The cross-frame mutable state of `PPEDetector`: `self.id_counter` and
`self.tracked_persons` (a Python dict, modelled as an insertion-ordered
association list; updating an existing key keeps its position, a new key is
appended, exactly as CPython dicts behave). -/
structure TrackerState where
  id_counter : Nat
  tracked_persons : List (Nat × TrackData)
deriving DecidableEq

/-- Centroid `((x1+x2)/2, (y1+y2)/2)` of a box. -/
def centroid (b : Box) : ℚ × ℚ := ((b.x1 + b.x2) / 2, (b.y1 + b.y2) / 2)

/-- Squared Euclidean distance between two centroids. -/
def distSq (a b : ℚ × ℚ) : ℚ := (a.1 - b.1) ^ 2 + (a.2 - b.2) ^ 2

/-- `distance < 50 and distance < min_distance`, phrased on squared
distances (`min_distance` starts at `float('inf')`, modelled as `none`). -/
def closer (dsq : ℚ) (minDistSq : Option ℚ) : Bool :=
  match minDistSq with
  | none => decide (dsq < 2500)
  | some m => decide (dsq < 2500) && decide (dsq < m)

/-- The inner `for pid, data in self.tracked_persons.items()` loop of
`track_persons`, threading `(min_distance, matched_id)`. -/
def matchLoop (c : ℚ × ℚ) :
    List (Nat × TrackData) → Option ℚ × Option Nat → Option ℚ × Option Nat
  | [], acc => acc
  | (pid, data) :: rest, (minDistSq, matchedId) =>
    let dsq := distSq c data.center
    if closer dsq minDistSq then
      matchLoop c rest (some dsq, some pid)
    else
      matchLoop c rest (minDistSq, matchedId)

/-- The `matched_id` produced by the inner loop for one incoming centroid. -/
def matchTrack (tracks : List (Nat × TrackData)) (c : ℚ × ℚ) : Option Nat :=
  (matchLoop c tracks (none, none)).2

/-- `self.tracked_persons[matched_id] = {...}` on an existing key: in-place
update, position preserved. -/
def updateTrack (tracks : List (Nat × TrackData)) (pid : Nat) (d : TrackData) :
    List (Nat × TrackData) :=
  tracks.map (fun pr => if pr.1 = pid then (pid, d) else pr)

/-- The body of the outer `for person in current_persons` loop: state is
`(tracked_persons, id_counter)`; returns the updated state and the person
with its assigned id. -/
def stepPerson (now : ℚ) (st : List (Nat × TrackData) × Nat) (person : Detection) :
    (List (Nat × TrackData) × Nat) × TrackedPerson :=
  let c := centroid person.box
  match matchTrack st.1 c with
  | some pid => ((updateTrack st.1 pid ⟨c, now⟩, st.2), ⟨pid, person⟩)
  | none => ((st.1 ++ [(st.2 + 1, ⟨c, now⟩)], st.2 + 1), ⟨st.2 + 1, person⟩)

/-- The outer loop of `track_persons` over the whole detection list. -/
def processAll (now : ℚ) (st : List (Nat × TrackData) × Nat) :
    List Detection → (List (Nat × TrackData) × Nat) × List TrackedPerson
  | [] => (st, [])
  | person :: rest =>
    let step := stepPerson now st person
    let tailRes := processAll now step.1 rest
    (tailRes.1, step.2 :: tailRes.2)

/-- `track_persons` from detector.py: run the matching loop, then purge every
track with `current_time - timestamp >= 2.0` (the filter keeps `< 2.0`). -/
def track_persons (s : TrackerState) (now : ℚ) (current_persons : List Detection) :
    TrackerState × List TrackedPerson :=
  let res := processAll now (s.tracked_persons, s.id_counter) current_persons
  (⟨res.1.2, res.1.1.filter (fun pr => now - pr.2.timestamp < 2)⟩, res.2)

/-- The per-frame results `process_frame` hands back to the caller
(`'persons'`, `'ppe_items'`, `'scores'`; the pixel `'frame'` is outside the
core). -/
structure FrameResult where
  persons : List TrackedPerson
  ppe_items : List Detection
  scores : List (Nat × Int)
deriving DecidableEq

/-- The core pipeline of `process_frame` from detector.py, starting from the
detection list the external YOLO detector produced for the frame: split by
class label, track, assign, score.  `none` models the propagated
`ZeroDivisionError`; the new tracker state is returned alongside the frame
result. -/
def process_frame (s : TrackerState) (now : ℚ) (detections : List Detection) :
    Option (TrackerState × FrameResult) :=
  let persons := detections.filter (fun d => d.cls = "Person")
  let ppe_items := detections.filter (fun d => (PPE_WEIGHTS.lookup d.cls).isSome)
  let tracked := track_persons s now persons
  match assign_ppe_to_persons tracked.2 ppe_items IOU_THRESHOLD with
  | none => none
  | some assigned =>
    some (tracked.1, ⟨tracked.2, ppe_items, calculate_ppe_scores tracked.2 assigned PPE_WEIGHTS⟩)

/-! ## Geometry utility lemmas -/

lemma calculate_iou_comm (a b : Box) : calculate_iou a b = calculate_iou b a := by
  simp only [calculate_iou]
  rw [max_comm b.x1 a.x1, max_comm b.y1 a.y1, min_comm b.x2 a.x2, min_comm b.y2 a.y2,
    add_comm ((b.x2 - b.x1) * (b.y2 - b.y1)) ((a.x2 - a.x1) * (a.y2 - a.y1))]

lemma calculate_iou_self (a : Box) (hx : a.x1 < a.x2) (hy : a.y1 < a.y2) :
    calculate_iou a a = some 1 := by
  have hA : (0 : ℚ) < (a.x2 - a.x1) * (a.y2 - a.y1) :=
    mul_pos (by linarith) (by linarith)
  have h1 : ¬(a.x2 < a.x1 ∨ a.y2 < a.y1) := by
    simp only [not_or, not_lt]
    exact ⟨hx.le, hy.le⟩
  simp only [calculate_iou, min_self, max_self]
  rw [show (a.x2 - a.x1) * (a.y2 - a.y1) + (a.x2 - a.x1) * (a.y2 - a.y1) -
      (a.x2 - a.x1) * (a.y2 - a.y1) = (a.x2 - a.x1) * (a.y2 - a.y1) from by ring]
  rw [if_neg hA.ne', div_self hA.ne', if_neg h1]

/-- C4: the claim says `calculate_iou` never crashes on well-formed
(`x1 ≤ x2`, `y1 ≤ y2`) boxes, zero-area boxes included, and returns a value
in `[0,1]`.  The code divides by `union` with no guard: for two identical
zero-area boxes the union is `0` and Python raises `ZeroDivisionError`
(modelled as `none`), so the claim describes the intended behavior but not
the code. -/
theorem c4_iou_crash_on_degenerate :
    calculate_iou ⟨0, 0, 0, 0⟩ ⟨0, 0, 0, 0⟩ = none := by
  with_unfolding_all decide

/-- C8 counterexample: the claim states `calculate_iou A A = 1.0` for every
box `A`; for the zero-area box it does not (the call raises instead of
returning `1.0`). -/
theorem c8_self_iou_counterexample :
    calculate_iou ⟨0, 0, 0, 0⟩ ⟨0, 0, 0, 0⟩ ≠ some 1 := by
  with_unfolding_all decide

/-- C8 (amended): `calculate_iou` is symmetric for all box pairs, and
`calculate_iou A A = 1.0` for every box of positive extent
(`x1 < x2` and `y1 < y2`); for zero-area boxes the self-IoU raises
`ZeroDivisionError` instead (see the counterexample). -/
theorem c8_iou_symm_and_self :
    (∀ a b : Box, calculate_iou a b = calculate_iou b a) ∧
    (∀ a : Box, a.x1 < a.x2 → a.y1 < a.y2 → calculate_iou a a = some 1) :=
  ⟨calculate_iou_comm, calculate_iou_self⟩

theorem c8_iou_symm_and_self_witness :
    calculate_iou ⟨0, 0, 2, 2⟩ ⟨1, 1, 3, 3⟩ = calculate_iou ⟨1, 1, 3, 3⟩ ⟨0, 0, 2, 2⟩ ∧
    calculate_iou ⟨0, 0, 2, 2⟩ ⟨0, 0, 2, 2⟩ = some 1 :=
  ⟨c8_iou_symm_and_self.1 ⟨0, 0, 2, 2⟩ ⟨1, 1, 3, 3⟩,
   c8_iou_symm_and_self.2 ⟨0, 0, 2, 2⟩ (by norm_num) (by norm_num)⟩

/-! ## Compliance scorer lemmas -/

lemma foldl_add_map (f : Detection → Int) (l : List Detection) :
    ∀ s : Int, l.foldl (fun acc it => acc + f it) s = s + (l.map f).sum := by
  induction l with
  | nil => intro s; simp
  | cons it rest ih =>
    intro s
    simp only [List.foldl_cons, List.map_cons, List.sum_cons, ih (s + f it)]
    ring

lemma personScore_eq_sum (assigned : List (Nat × Detection))
    (weights : List (String × Int)) (pid : Nat) :
    personScore assigned weights pid =
      ((itemsOf assigned pid).map (fun it => ((weights.lookup it.cls).getD 0))).sum := by
  unfold personScore
  by_cases h : hasKey assigned pid = true
  · rw [if_pos h, foldl_add_map, zero_add]
  · have hall : ∀ pr ∈ assigned, ¬(pr.1 = pid) := by
      intro pr hpr heq
      exact h (List.any_eq_true.mpr ⟨pr, hpr, by simp [heq]⟩)
    have hnil : itemsOf assigned pid = [] := by
      unfold itemsOf
      rw [List.filter_eq_nil_iff.mpr (by intro a ha; simpa using hall a ha)]
      rfl
    rw [if_neg h, hnil]
    rfl

lemma lookup_scores (g : Nat → Int) (persons : List TrackedPerson) :
    ∀ p ∈ persons,
      List.lookup p.id (persons.map (fun q => (q.id, g q.id))) = some (g p.id) := by
  induction persons with
  | nil => intro p hp; cases hp
  | cons q tl ih =>
    intro p hp
    simp only [List.map_cons, List.lookup]
    by_cases h : (p.id == q.id) = true
    · simp only [h]
      rw [eq_of_beq h]
    · rcases List.mem_cons.mp hp with rfl | htl
      · simp at h
      · simp only [Bool.not_eq_true] at h
        simp only [h]
        exact ih p htl

/-- C3: for every persons list, assignment and weight table,
`calculate_ppe_scores` stores, for each input person, exactly
`clamp(Σ weight(item.class), 0, 100)` over that person's assigned items,
a class label absent from the table contributing `0` via `.get(cls, 0)`. -/
theorem c3_scores_clamped_sum :
    ∀ (persons : List TrackedPerson) (assigned : List (Nat × Detection))
      (weights : List (String × Int)) (p : TrackedPerson), p ∈ persons →
      List.lookup p.id (calculate_ppe_scores persons assigned weights) =
        some (max 0 (min 100
          (((itemsOf assigned p.id).map (fun it => ((weights.lookup it.cls).getD 0))).sum))) := by
  intro persons assigned weights p hp
  unfold calculate_ppe_scores
  rw [lookup_scores (fun i => max 0 (min 100 (personScore assigned weights i))) persons p hp,
    personScore_eq_sum]

/-- C3 witness: three `Hardhat` detections (weight 40 each) assigned to one
person sum to a raw 120 and clamp to a final score of exactly 100. -/
theorem c3_scores_clamped_sum_witness :
    List.lookup 1 (calculate_ppe_scores [⟨1, ⟨"Person", ⟨0, 0, 10, 10⟩, 1⟩⟩]
      [(1, ⟨"Hardhat", ⟨0, 0, 4, 4⟩, 1⟩), (1, ⟨"Hardhat", ⟨1, 1, 5, 5⟩, 1⟩),
       (1, ⟨"Hardhat", ⟨2, 2, 6, 6⟩, 1⟩)] PPE_WEIGHTS) = some 100 :=
  (c3_scores_clamped_sum [⟨1, ⟨"Person", ⟨0, 0, 10, 10⟩, 1⟩⟩]
      [(1, ⟨"Hardhat", ⟨0, 0, 4, 4⟩, 1⟩), (1, ⟨"Hardhat", ⟨1, 1, 5, 5⟩, 1⟩),
       (1, ⟨"Hardhat", ⟨2, 2, 6, 6⟩, 1⟩)] PPE_WEIGHTS
      ⟨1, ⟨"Person", ⟨0, 0, 10, 10⟩, 1⟩⟩ (by simp)).trans (by with_unfolding_all decide)

/-- C10: the ScoreMap's key list is exactly the input person id list, and a
person with no assigned items receives an explicit `0` entry rather than
being absent. -/
theorem c10_scoremap_keys :
    ∀ (persons : List TrackedPerson) (assigned : List (Nat × Detection))
      (weights : List (String × Int)),
      ((calculate_ppe_scores persons assigned weights).map Prod.fst =
        persons.map TrackedPerson.id) ∧
      (∀ p ∈ persons, itemsOf assigned p.id = [] →
        List.lookup p.id (calculate_ppe_scores persons assigned weights) = some 0) := by
  intro persons assigned weights
  constructor
  · unfold calculate_ppe_scores
    rw [List.map_map]
    rfl
  · intro p hp hnil
    unfold calculate_ppe_scores
    rw [lookup_scores (fun i => max 0 (min 100 (personScore assigned weights i))) persons p hp,
      personScore_eq_sum, hnil]
    rfl

theorem c10_scoremap_keys_witness :
    ((calculate_ppe_scores [⟨5, ⟨"Person", ⟨0, 0, 10, 10⟩, 1⟩⟩] [] PPE_WEIGHTS).map
      Prod.fst = [5]) ∧
    List.lookup 5 (calculate_ppe_scores [⟨5, ⟨"Person", ⟨0, 0, 10, 10⟩, 1⟩⟩] []
      PPE_WEIGHTS) = some 0 :=
  ⟨(c10_scoremap_keys [⟨5, ⟨"Person", ⟨0, 0, 10, 10⟩, 1⟩⟩] [] PPE_WEIGHTS).1,
   (c10_scoremap_keys [⟨5, ⟨"Person", ⟨0, 0, 10, 10⟩, 1⟩⟩] [] PPE_WEIGHTS).2
     ⟨5, ⟨"Person", ⟨0, 0, 10, 10⟩, 1⟩⟩ (by simp) rfl⟩

/-! ## Identity tracker lemmas -/

lemma matchLoop_far (c : ℚ × ℚ) (tracks : List (Nat × TrackData)) :
    ∀ acc : Option ℚ × Option Nat,
      (∀ pr ∈ tracks, ¬(distSq c pr.2.center < 2500)) → matchLoop c tracks acc = acc := by
  induction tracks with
  | nil => intro acc _; rfl
  | cons hd tl ih =>
    rintro ⟨minD, mid⟩ hfar
    obtain ⟨pid, data⟩ := hd
    have h0 : ¬(distSq c data.center < 2500) := hfar (pid, data) (by simp)
    have hc : closer (distSq c data.center) minD = false := by
      cases minD <;> simp [closer, h0]
    simp only [matchLoop, hc, Bool.false_eq_true, if_false]
    exact ih (minD, mid) (fun pr hpr => hfar pr (List.mem_cons_of_mem _ hpr))

lemma matchLoop_mem (c : ℚ × ℚ) (tracks : List (Nat × TrackData)) :
    ∀ (minD : Option ℚ) (mid : Option Nat) (q : Nat),
      (matchLoop c tracks (minD, mid)).2 = some q →
      mid = some q ∨ q ∈ tracks.map Prod.fst := by
  induction tracks with
  | nil => intro minD mid q h; exact Or.inl h
  | cons hd tl ih =>
    intro minD mid q h
    obtain ⟨pid, data⟩ := hd
    by_cases hc : closer (distSq c data.center) minD = true
    · have h2 : (matchLoop c tl (some (distSq c data.center), some pid)).2 = some q := by
        simpa only [matchLoop, hc, if_true] using h
      rcases ih _ _ q h2 with h3 | h3
      · right
        have : q = pid := (Option.some.injEq _ _).mp h3.symm
        simp [this]
      · right; simp [h3]
    · rw [Bool.not_eq_true] at hc
      have h2 : (matchLoop c tl (minD, mid)).2 = some q := by
        simpa only [matchLoop, hc, Bool.false_eq_true, if_false] using h
      rcases ih _ _ q h2 with h3 | h3
      · exact Or.inl h3
      · right; simp [h3]

lemma updateTrack_fst (tracks : List (Nat × TrackData)) (pid : Nat) (d : TrackData) :
    (updateTrack tracks pid d).map Prod.fst = tracks.map Prod.fst := by
  unfold updateTrack
  rw [List.map_map]
  apply List.map_congr_left
  intro pr _
  by_cases h : pr.1 = pid
  · simp [h]
  · simp [h]

lemma updateTrack_mem (tracks : List (Nat × TrackData)) (pid : Nat) (d : TrackData) :
    ∀ pr ∈ updateTrack tracks pid d, ∃ pr0 ∈ tracks, pr.1 = pr0.1 := by
  intro pr hpr
  unfold updateTrack at hpr
  rcases List.mem_map.mp hpr with ⟨pr0, hpr0, heq⟩
  refine ⟨pr0, hpr0, ?_⟩
  rw [← heq]
  by_cases h : pr0.1 = pid
  · simp [h]
  · simp [h]

lemma processAll_spec (now : ℚ) :
    ∀ (dets : List Detection) (tracks : List (Nat × TrackData)) (ctr : Nat),
      (∀ pr ∈ tracks, 1 ≤ pr.1 ∧ pr.1 ≤ ctr) →
      (∀ pr ∈ (processAll now (tracks, ctr) dets).1.1,
          1 ≤ pr.1 ∧ pr.1 ≤ (processAll now (tracks, ctr) dets).1.2) ∧
      ctr ≤ (processAll now (tracks, ctr) dets).1.2 ∧
      (∀ tp ∈ (processAll now (tracks, ctr) dets).2,
          (1 ≤ tp.id ∧ tp.id ≤ (processAll now (tracks, ctr) dets).1.2) ∧
          (tp.id ∈ tracks.map Prod.fst ∨ ctr < tp.id)) := by
  intro dets
  induction dets with
  | nil =>
    intro tracks ctr hinv
    exact ⟨hinv, le_refl _, by simp [processAll]⟩
  | cons person rest ih =>
    intro tracks ctr hinv
    cases hm : matchTrack tracks (centroid person.box) with
    | some pid =>
      have hpidmem : pid ∈ tracks.map Prod.fst := by
        rcases matchLoop_mem (centroid person.box) tracks none none pid hm with h | h
        · cases h
        · exact h
      have hpid : 1 ≤ pid ∧ pid ≤ ctr := by
        rcases List.mem_map.mp hpidmem with ⟨pr0, hpr0, hfst⟩
        have h0 := hinv pr0 hpr0
        rwa [hfst] at h0
      have hinv1 : ∀ pr ∈ updateTrack tracks pid ⟨centroid person.box, now⟩,
          1 ≤ pr.1 ∧ pr.1 ≤ ctr := by
        intro pr hpr
        rcases updateTrack_mem tracks pid _ pr hpr with ⟨pr0, hpr0, heq⟩
        rw [heq]
        exact hinv pr0 hpr0
      have IH := ih (updateTrack tracks pid ⟨centroid person.box, now⟩) ctr hinv1
      simp only [processAll, stepPerson, hm]
      refine ⟨IH.1, IH.2.1, ?_⟩
      intro tp htp
      rcases List.mem_cons.mp htp with rfl | htp2
      · exact ⟨⟨hpid.1, le_trans hpid.2 IH.2.1⟩, Or.inl hpidmem⟩
      · obtain ⟨hb, hdisj⟩ := IH.2.2 tp htp2
        refine ⟨hb, ?_⟩
        rcases hdisj with hmem | hgt
        · left; rwa [updateTrack_fst] at hmem
        · right; exact hgt
    | none =>
      have hinv1 : ∀ pr ∈ tracks ++ [(ctr + 1, (⟨centroid person.box, now⟩ : TrackData))],
          1 ≤ pr.1 ∧ pr.1 ≤ ctr + 1 := by
        intro pr hpr
        rcases List.mem_append.mp hpr with h | h
        · obtain ⟨ha, hb⟩ := hinv pr h
          exact ⟨ha, le_trans hb (Nat.le_succ _)⟩
        · rw [List.mem_singleton] at h
          rw [h]
          exact ⟨Nat.succ_le_succ (Nat.zero_le _), le_refl _⟩
      have IH := ih (tracks ++ [(ctr + 1, (⟨centroid person.box, now⟩ : TrackData))])
        (ctr + 1) hinv1
      simp only [processAll, stepPerson, hm]
      refine ⟨IH.1, le_trans (Nat.le_succ _) IH.2.1, ?_⟩
      intro tp htp
      rcases List.mem_cons.mp htp with rfl | htp2
      · exact ⟨⟨Nat.succ_le_succ (Nat.zero_le _), IH.2.1⟩, Or.inr (Nat.lt_succ_self _)⟩
      · obtain ⟨hb, hdisj⟩ := IH.2.2 tp htp2
        refine ⟨hb, ?_⟩
        rcases hdisj with hmem | hgt
        · rcases List.mem_map.mp hmem with ⟨pr0, hpr0, hfst⟩
          rcases List.mem_append.mp hpr0 with h | h
          · left; exact List.mem_map.mpr ⟨pr0, h, hfst⟩
          · right
            rw [List.mem_singleton] at h
            rw [h] at hfst
            omega
        · right; omega

/-- C2: with a single live track, a detection whose centroid moved at most
49px (squared distance at most 2401) keeps the track's ID; with two live
tracks both in range, the nearest (not the first) wins; and a detection at
distance at least 51px (squared distance at least 2601) from every live
track gets the freshly minted ID `id_counter + 1`. -/
theorem c2_tracker_nearest_match_and_fresh_id :
    (∀ (pid ctr : Nat) (td : TrackData) (det : Detection) (now : ℚ),
        distSq (centroid det.box) td.center ≤ 2401 →
        ((track_persons ⟨ctr, [(pid, td)]⟩ now [det]).2.map TrackedPerson.id) = [pid]) ∧
    (∀ (p1 p2 ctr : Nat) (t1 t2 : TrackData) (det : Detection) (now : ℚ),
        distSq (centroid det.box) t2.center < distSq (centroid det.box) t1.center →
        distSq (centroid det.box) t1.center < 2500 →
        ((track_persons ⟨ctr, [(p1, t1), (p2, t2)]⟩ now [det]).2.map
          TrackedPerson.id) = [p2]) ∧
    (∀ (s : TrackerState) (det : Detection) (now : ℚ),
        (∀ pr ∈ s.tracked_persons, 2601 ≤ distSq (centroid det.box) pr.2.center) →
        ((track_persons s now [det]).2.map TrackedPerson.id) = [s.id_counter + 1]) := by
  refine ⟨?_, ?_, ?_⟩
  · intro pid ctr td det now h
    have hc : closer (distSq (centroid det.box) td.center) none = true := by
      simp only [closer, decide_eq_true_eq]
      linarith
    simp [track_persons, processAll, stepPerson, matchTrack, matchLoop, hc]
  · intro p1 p2 ctr t1 t2 det now h12 h1
    have hc1 : closer (distSq (centroid det.box) t1.center) none = true := by
      simp only [closer, decide_eq_true_eq]
      linarith
    have hc2 : closer (distSq (centroid det.box) t2.center)
        (some (distSq (centroid det.box) t1.center)) = true := by
      simp only [closer, Bool.and_eq_true, decide_eq_true_eq]
      exact ⟨by linarith, h12⟩
    simp [track_persons, processAll, stepPerson, matchTrack, matchLoop, hc1, hc2]
  · intro s det now hfar
    have hnone : matchTrack s.tracked_persons (centroid det.box) = none := by
      unfold matchTrack
      rw [matchLoop_far (centroid det.box) s.tracked_persons (none, none)
        (fun pr hpr => by have := hfar pr hpr; intro hlt; linarith)]
    simp [track_persons, processAll, stepPerson, hnone]

theorem c2_tracker_nearest_match_and_fresh_id_witness :
    ((track_persons ⟨3, [(2, ⟨(10, 0), 0⟩)]⟩ 5 [⟨"Person", ⟨0, 0, 20, 0⟩, 1⟩]).2.map
      TrackedPerson.id = [2]) ∧
    ((track_persons ⟨3, [(2, ⟨(0, 0), 0⟩)]⟩ 5
        [⟨"Person", ⟨100, 100, 120, 100⟩, 1⟩]).2.map TrackedPerson.id = [4]) := by
  constructor
  · exact c2_tracker_nearest_match_and_fresh_id.1 2 3 ⟨(10, 0), 0⟩
      ⟨"Person", ⟨0, 0, 20, 0⟩, 1⟩ 5 (by norm_num [distSq, centroid])
  · have h := c2_tracker_nearest_match_and_fresh_id.2.2 ⟨3, [(2, ⟨(0, 0), 0⟩)]⟩
      ⟨"Person", ⟨100, 100, 120, 100⟩, 1⟩ 5 (by
        intro pr hpr
        rw [List.mem_singleton] at hpr
        subst hpr
        norm_num [distSq, centroid])
    simpa using h

/-- C5 counterexample: one live track with ID 1 at the origin and two person
detections both centred at the origin — both are matched to the same track,
so both receive ID 1 in the same frame, contradicting the claim that no two
detections in one frame share an ID. -/
theorem c5_duplicate_id_counterexample :
    ((track_persons ⟨1, [(1, ⟨(0, 0), 0⟩)]⟩ 1
        [⟨"Person", ⟨-5, -5, 5, 5⟩, 1⟩, ⟨"Person", ⟨-5, -5, 5, 5⟩, 1⟩]).2.map
      TrackedPerson.id) = [1, 1] := by
  with_unfolding_all decide

/-- C5 (amended): a matched track is not removed from candidacy within the
frame (only its centroid is updated), so with a single live track, any
second detection within the 50px threshold of the first detection's centroid
receives the same ID as the first. -/
theorem c5_track_rematch_same_frame :
    ∀ (pid ctr : Nat) (td : TrackData) (d1 d2 : Detection) (now : ℚ),
      distSq (centroid d1.box) td.center < 2500 →
      distSq (centroid d2.box) (centroid d1.box) < 2500 →
      ((track_persons ⟨ctr, [(pid, td)]⟩ now [d1, d2]).2.map
        TrackedPerson.id) = [pid, pid] := by
  intro pid ctr td d1 d2 now h1 h2
  have hc1 : closer (distSq (centroid d1.box) td.center) none = true := by
    simp only [closer, decide_eq_true_eq]
    exact h1
  have hc2 : closer (distSq (centroid d2.box) (centroid d1.box)) none = true := by
    simp only [closer, decide_eq_true_eq]
    exact h2
  simp [track_persons, processAll, stepPerson, matchTrack, matchLoop, updateTrack,
    hc1, hc2]

theorem c5_track_rematch_same_frame_witness :
    ((track_persons ⟨9, [(7, ⟨(0, 0), 0⟩)]⟩ 2
        [⟨"Person", ⟨10, 10, 30, 30⟩, 1⟩, ⟨"Person", ⟨20, 20, 40, 40⟩, 1⟩]).2.map
      TrackedPerson.id) = [7, 7] :=
  c5_track_rematch_same_frame 7 9 ⟨(0, 0), 0⟩ ⟨"Person", ⟨10, 10, 30, 30⟩, 1⟩
    ⟨"Person", ⟨20, 20, 40, 40⟩, 1⟩ 2 (by norm_num [distSq, centroid])
    (by norm_num [distSq, centroid])

/-- C7: for any tracker state whose track IDs are positive and bounded by
the counter, after a `track_persons` call (i) every surviving track was seen
less than 2.0 seconds ago (every track at least 2.0 seconds old is purged),
(ii) the invariant is preserved, (iii) the ID counter never decreases, and
(iv) every ID handed out is positive and is either an ID that was live on
entry or is strictly greater than the entry counter — hence a purged
(no-longer-live) ID, being at most the entry counter, is never reassigned,
and fresh detections receive successive unused counter values. -/
theorem c7_purge_and_id_freshness :
    ∀ (s : TrackerState) (now : ℚ) (dets : List Detection),
      (∀ pr ∈ s.tracked_persons, 1 ≤ pr.1 ∧ pr.1 ≤ s.id_counter) →
      (∀ pr ∈ (track_persons s now dets).1.tracked_persons,
          now - pr.2.timestamp < 2) ∧
      (∀ pr ∈ (track_persons s now dets).1.tracked_persons,
          1 ≤ pr.1 ∧ pr.1 ≤ (track_persons s now dets).1.id_counter) ∧
      s.id_counter ≤ (track_persons s now dets).1.id_counter ∧
      (∀ tp ∈ (track_persons s now dets).2,
          (1 ≤ tp.id ∧ tp.id ≤ (track_persons s now dets).1.id_counter) ∧
          (tp.id ∈ s.tracked_persons.map Prod.fst ∨ s.id_counter < tp.id)) := by
  intro s now dets hinv
  have H := processAll_spec now dets s.tracked_persons s.id_counter hinv
  unfold track_persons
  refine ⟨?_, ?_, H.2.1, H.2.2⟩
  · intro pr hpr
    have h := (List.mem_filter.mp hpr).2
    exact of_decide_eq_true h
  · intro pr hpr
    exact H.1 pr (List.mem_filter.mp hpr).1

theorem c7_purge_and_id_freshness_witness :
    (∀ pr ∈ ((⟨2, [(1, ⟨(0, 0), 0⟩), (2, ⟨(100, 100), -5⟩)]⟩ :
          TrackerState)).tracked_persons, 1 ≤ pr.1 ∧ pr.1 ≤ 2) ∧
    (∀ pr ∈ (track_persons ⟨2, [(1, ⟨(0, 0), 0⟩), (2, ⟨(100, 100), -5⟩)]⟩ 0
        [⟨"Person", ⟨-1, -1, 1, 1⟩, 1⟩]).1.tracked_persons,
        (0 : ℚ) - pr.2.timestamp < 2) ∧
    (track_persons ⟨2, [(1, ⟨(0, 0), 0⟩), (2, ⟨(100, 100), -5⟩)]⟩ 0
        [⟨"Person", ⟨-1, -1, 1, 1⟩, 1⟩]).1.tracked_persons = [(1, ⟨(0, 0), 0⟩)] := by
  refine ⟨by with_unfolding_all decide, ?_, by with_unfolding_all decide⟩
  exact (c7_purge_and_id_freshness ⟨2, [(1, ⟨(0, 0), 0⟩), (2, ⟨(100, 100), -5⟩)]⟩ 0
    [⟨"Person", ⟨-1, -1, 1, 1⟩, 1⟩] (by with_unfolding_all decide)).1

/-! ## PPE assigner lemmas -/

lemma bestPersonLoop_cons_eq (ppeBox : Box) (thresh : ℚ) (person : TrackedPerson)
    (rest : List TrackedPerson) (b : ℚ) (bp : Option TrackedPerson) :
    bestPersonLoop ppeBox thresh (person :: rest) (b, bp) =
      match calculate_iou person.det.box ppeBox with
      | none => none
      | some currentIou =>
        if currentIou > b ∧ currentIou ≥ thresh then
          bestPersonLoop ppeBox thresh rest (currentIou, some person)
        else
          bestPersonLoop ppeBox thresh rest (b, bp) := rfl

lemma bestPersonLoop_spec (ppeBox : Box) (thresh : ℚ) :
    ∀ (ps : List TrackedPerson) (b : ℚ) (bp : Option TrackedPerson)
      (res : ℚ × Option TrackedPerson),
      bestPersonLoop ppeBox thresh ps (b, bp) = some res →
      b ≤ res.1 ∧
      ((res.2 = bp ∧ res.1 = b) ∨
        ∃ p ∈ ps, res.2 = some p ∧ calculate_iou p.det.box ppeBox = some res.1 ∧
          thresh ≤ res.1 ∧ b < res.1) ∧
      (∀ q ∈ ps, ∀ w, calculate_iou q.det.box ppeBox = some w →
        w ≤ res.1 ∨ w < thresh) ∧
      (∀ q ∈ ps, (calculate_iou q.det.box ppeBox).isSome = true) := by
  intro ps
  induction ps with
  | nil =>
    intro b bp res h
    have h2 : (b, bp) = res := by injection h
    subst h2
    exact ⟨le_refl _, Or.inl ⟨rfl, rfl⟩, by simp, by simp⟩
  | cons person rest ih =>
    intro b bp res h
    cases hiou : calculate_iou person.det.box ppeBox with
    | none =>
      simp only [bestPersonLoop_cons_eq, hiou] at h
      cases h
    | some cIou =>
      simp only [bestPersonLoop_cons_eq, hiou] at h
      by_cases hcond : cIou > b ∧ cIou ≥ thresh
      · rw [if_pos hcond] at h
        obtain ⟨IH1, IH2, IH3, IH4⟩ := ih cIou (some person) res h
        refine ⟨le_trans (le_of_lt hcond.1) IH1, ?_, ?_, ?_⟩
        · rcases IH2 with ⟨h1, h2⟩ | ⟨p, hp, h1, h2, h3, h4⟩
          · exact Or.inr ⟨person, List.mem_cons_self _ _, h1, by rw [h2]; exact hiou,
              by rw [h2]; exact hcond.2, by rw [h2]; exact hcond.1⟩
          · exact Or.inr ⟨p, List.mem_cons_of_mem _ hp, h1, h2, h3,
              lt_trans hcond.1 h4⟩
        · intro q hq w hw
          rcases List.mem_cons.mp hq with rfl | hq2
          · rw [hiou] at hw
            have hwc : w = cIou := (Option.some.injEq _ _).mp hw.symm
            exact Or.inl (by rw [hwc]; exact IH1)
          · exact IH3 q hq2 w hw
        · intro q hq
          rcases List.mem_cons.mp hq with rfl | hq2
          · rw [hiou]; rfl
          · exact IH4 q hq2
      · rw [if_neg hcond] at h
        obtain ⟨IH1, IH2, IH3, IH4⟩ := ih b bp res h
        refine ⟨IH1, ?_, ?_, ?_⟩
        · rcases IH2 with hl | ⟨p, hp, h1, h2, h3, h4⟩
          · exact Or.inl hl
          · exact Or.inr ⟨p, List.mem_cons_of_mem _ hp, h1, h2, h3, h4⟩
        · intro q hq w hw
          rcases List.mem_cons.mp hq with rfl | hq2
          · rw [hiou] at hw
            have hwc : w = cIou := (Option.some.injEq _ _).mp hw.symm
            subst hwc
            by_cases hgt : w > b
            · right
              by_contra hth
              exact hcond ⟨hgt, not_lt.mp hth⟩
            · left
              exact le_trans (not_lt.mp hgt) IH1
          · exact IH3 q hq2 w hw
        · intro q hq
          rcases List.mem_cons.mp hq with rfl | hq2
          · rw [hiou]; rfl
          · exact IH4 q hq2

lemma bestPersonLoop_some (ppeBox : Box) (thresh : ℚ) (ps : List TrackedPerson)
    (res : ℚ × Option TrackedPerson) (p : TrackedPerson)
    (h : bestPersonLoop ppeBox thresh ps (0, none) = some res) (h2 : res.2 = some p) :
    p ∈ ps ∧ calculate_iou p.det.box ppeBox = some res.1 ∧ thresh ≤ res.1 ∧
    0 < res.1 ∧
    ∀ q ∈ ps, ∀ w, calculate_iou q.det.box ppeBox = some w → w ≤ res.1 := by
  obtain ⟨H1, H2, H3, _⟩ := bestPersonLoop_spec ppeBox thresh ps 0 none res h
  rcases H2 with ⟨hl, _⟩ | ⟨p2, hp2, he, hiou, hth, hlt⟩
  · rw [h2] at hl; cases hl
  · have hpp : p2 = p := by
      rw [h2] at he
      exact (Option.some.injEq _ _).mp he.symm
    subst hpp
    refine ⟨hp2, hiou, hth, hlt, ?_⟩
    intro q hq w hw
    rcases H3 q hq w hw with hle | hlt2
    · exact hle
    · exact le_of_lt (lt_of_lt_of_le hlt2 hth)

lemma bestPersonLoop_none (ppeBox : Box) (thresh : ℚ) (ps : List TrackedPerson)
    (res : ℚ × Option TrackedPerson)
    (h : bestPersonLoop ppeBox thresh ps (0, none) = some res) (h2 : res.2 = none) :
    ∀ q ∈ ps, ∀ w, calculate_iou q.det.box ppeBox = some w → ¬(0 < w ∧ thresh ≤ w) := by
  obtain ⟨_, H2, H3, _⟩ := bestPersonLoop_spec ppeBox thresh ps 0 none res h
  rcases H2 with ⟨_, hz⟩ | ⟨p2, _, he, _⟩
  · intro q hq w hw hcon
    rcases H3 q hq w hw with hle | hlt2
    · rw [hz] at hle
      exact absurd (lt_of_lt_of_le hcon.1 hle) (lt_irrefl 0)
    · exact absurd (lt_of_le_of_lt hcon.2 hlt2) (lt_irrefl thresh)
  · rw [h2] at he
    cases he

lemma assignLoop_cons_eq (persons : List TrackedPerson) (thresh : ℚ) (it : Detection)
    (rest : List Detection) :
    assignLoop persons thresh (it :: rest) =
      (bestPersonLoop it.box thresh persons (0, none)).bind (fun acc =>
        (assignLoop persons thresh rest).bind (fun tail =>
          match acc.2 with
          | some p => some ((p.id, it) :: tail)
          | none => some tail)) := rfl

lemma assignLoop_spec (persons : List TrackedPerson) (thresh : ℚ) :
    ∀ (its : List Detection) (l : List (Nat × Detection)),
      assignLoop persons thresh its = some l →
      List.Sublist (l.map Prod.snd) its ∧
      (∀ pr ∈ l, ∃ p ∈ persons, p.id = pr.1 ∧ ∃ v,
          calculate_iou p.det.box pr.2.box = some v ∧ thresh ≤ v ∧ 0 < v ∧
          ∀ q ∈ persons, ∀ w, calculate_iou q.det.box pr.2.box = some w → w ≤ v) ∧
      (∀ it ∈ its, (∃ p ∈ persons, ∃ v, calculate_iou p.det.box it.box = some v ∧
          0 < v ∧ thresh ≤ v) → it ∈ l.map Prod.snd) := by
  intro its
  induction its with
  | nil =>
    intro l h
    have h2 : ([] : List (Nat × Detection)) = l := by injection h
    subst h2
    exact ⟨by simp, by simp, by simp⟩
  | cons it rest ih =>
    intro l h
    rw [assignLoop_cons_eq] at h
    cases hb : bestPersonLoop it.box thresh persons (0, none) with
    | none =>
      rw [hb] at h
      cases h
    | some acc =>
      rw [hb, Option.some_bind] at h
      cases ht : assignLoop persons thresh rest with
      | none =>
        rw [ht] at h
        cases h
      | some tail =>
        rw [ht, Option.some_bind] at h
        obtain ⟨IH1, IH2, IH3⟩ := ih tail ht
        cases hacc : acc.2 with
        | some p =>
          rw [hacc] at h
          have hl : (p.id, it) :: tail = l := by injection h
          subst hl
          obtain ⟨hp, hiou, hth, hpos, hub⟩ :=
            bestPersonLoop_some it.box thresh persons acc p hb hacc
          refine ⟨?_, ?_, ?_⟩
          · simpa using List.Sublist.cons₂ it IH1
          · intro pr hpr
            rcases List.mem_cons.mp hpr with rfl | hpr2
            · exact ⟨p, hp, rfl, acc.1, hiou, hth, hpos, hub⟩
            · exact IH2 pr hpr2
          · intro it2 hit2 hqual
            rcases List.mem_cons.mp hit2 with rfl | hit3
            · simp
            · have hmem := IH3 it2 hit3 hqual
              simp only [List.map_cons]
              exact List.mem_cons_of_mem _ hmem
        | none =>
          rw [hacc] at h
          have hl : tail = l := by injection h
          subst hl
          have hno := bestPersonLoop_none it.box thresh persons acc hb hacc
          refine ⟨IH1.trans (List.sublist_cons_self it rest), IH2, ?_⟩
          · intro it2 hit2 hqual
            rcases List.mem_cons.mp hit2 with rfl | hit3
            · exfalso
              obtain ⟨p, hp, v, hv, hvpos, hvth⟩ := hqual
              exact hno p hp v hv ⟨hvpos, hvth⟩
            · exact IH3 it2 hit3 hqual

/-- C1 counterexample: with the configured `IOU_THRESHOLD = 0`, one person
and one item whose IoU with that person is exactly `0`: under the claim's
selection rule the person qualifies (the greatest IoU, `0`, satisfies
`0 ≥ IOU_THRESHOLD`), so the item should be assigned; the code discards it,
because `current_iou > best_iou` is tested against the initial
`best_iou = 0` and hence additionally demands a strictly positive IoU. -/
theorem c1_zero_iou_discarded_counterexample :
    calculate_iou (⟨0, 0, 10, 10⟩ : Box) ⟨20, 20, 30, 30⟩ = some 0 ∧
    IOU_THRESHOLD = 0 ∧
    assign_ppe_to_persons [⟨1, ⟨"Person", ⟨0, 0, 10, 10⟩, 1⟩⟩]
      [⟨"Hardhat", ⟨20, 20, 30, 30⟩, 1⟩] IOU_THRESHOLD = some [] :=
  ⟨by with_unfolding_all decide, rfl, by with_unfolding_all decide⟩

/-- C1 (amended): when `assign_ppe_to_persons` returns an assignment list
(no `ZeroDivisionError`), then (i) every assigned pair maps an item to a
listed person whose IoU with it is at least the threshold, strictly
positive, and maximal among all persons; (ii) the assigned items form a
sublist of the items sorted by strictly descending-or-equal area (each
item is assigned at most once, and items are processed largest-area first,
the sorted list being a permutation of the input); (iii) consequently the
assignment events are in non-increasing area order; and (iv) an item with
at least one person of strictly positive, threshold-passing IoU is never
discarded.  (Relative to the claim, the single change: a qualifying IoU
must additionally be strictly positive, so with `IOU_THRESHOLD = 0` an
item whose IoU with every person is `0` is discarded.  Maximality in (i)
entails that whenever a strictly greatest qualifying IoU exists, its
person is the one selected.) -/
theorem c1_assign_ppe_greedy :
    ∀ (persons : List TrackedPerson) (items : List Detection) (thresh : ℚ)
      (l : List (Nat × Detection)),
      assign_ppe_to_persons persons items thresh = some l →
      (∀ pr ∈ l, ∃ p ∈ persons, p.id = pr.1 ∧ ∃ v,
          calculate_iou p.det.box pr.2.box = some v ∧ thresh ≤ v ∧ 0 < v ∧
          ∀ q ∈ persons, ∀ w, calculate_iou q.det.box pr.2.box = some w → w ≤ v) ∧
      List.Sublist (l.map Prod.snd) (sortPpeDesc items) ∧
      List.Perm (sortPpeDesc items) items ∧
      List.Pairwise (fun x y => boxArea y.2.box ≤ boxArea x.2.box) l ∧
      (∀ it ∈ items, (∃ p ∈ persons, ∃ v, calculate_iou p.det.box it.box = some v ∧
          0 < v ∧ thresh ≤ v) → it ∈ l.map Prod.snd) := by
  intro persons items thresh l h
  obtain ⟨H1, H2, H3⟩ := assignLoop_spec persons thresh (sortPpeDesc items) l h
  refine ⟨H2, H1, List.perm_insertionSort ppeGE items, ?_, ?_⟩
  · have hs : List.Pairwise ppeGE (sortPpeDesc items) :=
      List.sorted_insertionSort ppeGE items
    have hsub : List.Pairwise ppeGE (l.map Prod.snd) := List.Pairwise.sublist H1 hs
    rw [List.pairwise_map] at hsub
    exact hsub
  · intro it hit hq
    exact H3 it ((List.perm_insertionSort ppeGE items).mem_iff.mpr hit) hq

theorem c1_assign_ppe_greedy_witness :
    assign_ppe_to_persons
        [⟨1, ⟨"Person", ⟨0, 0, 10, 10⟩, 1⟩⟩, ⟨2, ⟨"Person", ⟨20, 0, 30, 10⟩, 1⟩⟩]
        [⟨"Hardhat", ⟨0, 0, 4, 4⟩, 1⟩, ⟨"Safety Vest", ⟨0, 0, 10, 10⟩, 1⟩] 0 =
      some [(1, ⟨"Safety Vest", ⟨0, 0, 10, 10⟩, 1⟩), (1, ⟨"Hardhat", ⟨0, 0, 4, 4⟩, 1⟩)] ∧
    List.Pairwise (fun x y => boxArea y.2.box ≤ boxArea x.2.box)
      [((1 : Nat), (⟨"Safety Vest", ⟨0, 0, 10, 10⟩, 1⟩ : Detection)),
       (1, ⟨"Hardhat", ⟨0, 0, 4, 4⟩, 1⟩)] ∧
    List.Sublist
      ([((1 : Nat), (⟨"Safety Vest", ⟨0, 0, 10, 10⟩, 1⟩ : Detection)),
        (1, ⟨"Hardhat", ⟨0, 0, 4, 4⟩, 1⟩)].map Prod.snd)
      (sortPpeDesc [⟨"Hardhat", ⟨0, 0, 4, 4⟩, 1⟩, ⟨"Safety Vest", ⟨0, 0, 10, 10⟩, 1⟩]) := by
  have H := c1_assign_ppe_greedy
    [⟨1, ⟨"Person", ⟨0, 0, 10, 10⟩, 1⟩⟩, ⟨2, ⟨"Person", ⟨20, 0, 30, 10⟩, 1⟩⟩]
    [⟨"Hardhat", ⟨0, 0, 4, 4⟩, 1⟩, ⟨"Safety Vest", ⟨0, 0, 10, 10⟩, 1⟩] 0
    [(1, ⟨"Safety Vest", ⟨0, 0, 10, 10⟩, 1⟩), (1, ⟨"Hardhat", ⟨0, 0, 4, 4⟩, 1⟩)]
    (by with_unfolding_all decide)
  exact ⟨by with_unfolding_all decide, H.2.2.2.1, H.2.1⟩

/-- C6 counterexample: `IOU_THRESHOLD` is configured as `0`, there is one
person to compare against, and the item's IoU with that person is exactly
`0`; the claim says the item is still assigned to some person, but the code
discards it (empty assignment). -/
theorem c6_zero_threshold_counterexample :
    IOU_THRESHOLD = 0 ∧
    calculate_iou (⟨0, 0, 10, 10⟩ : Box) ⟨40, 40, 50, 50⟩ = some 0 ∧
    assign_ppe_to_persons [⟨1, ⟨"Person", ⟨0, 0, 10, 10⟩, 1⟩⟩]
      [⟨"Mask", ⟨40, 40, 50, 50⟩, 1⟩] IOU_THRESHOLD = some [] :=
  ⟨rfl, by with_unfolding_all decide, by with_unfolding_all decide⟩

/-- C6 (amended): with `IOU_THRESHOLD = 0`, a single item is assigned to
some person precisely when some person has a strictly positive IoU with it;
an item whose IoU with every person is exactly `0` is always discarded
(zero overlap never wins, because the code requires
`current_iou > best_iou` against the initial `best_iou = 0`). -/
theorem c6_zero_threshold_requires_positive_iou :
    ∀ (persons : List TrackedPerson) (it : Detection) (l : List (Nat × Detection)),
      assign_ppe_to_persons persons [it] 0 = some l →
      ((∃ pr, pr ∈ l) ↔ ∃ p ∈ persons, ∃ v,
        calculate_iou p.det.box it.box = some v ∧ 0 < v) := by
  intro persons it l h
  have hsort : sortPpeDesc [it] = [it] := by
    simp [sortPpeDesc, List.insertionSort, List.orderedInsert]
  unfold assign_ppe_to_persons at h
  rw [hsort, assignLoop_cons_eq] at h
  cases hb : bestPersonLoop it.box 0 persons (0, none) with
  | none =>
    rw [hb] at h
    cases h
  | some acc =>
    rw [hb, Option.some_bind] at h
    have hnil : assignLoop persons 0 [] = some [] := rfl
    rw [hnil, Option.some_bind] at h
    cases hacc : acc.2 with
    | some p =>
      rw [hacc] at h
      have hl : [(p.id, it)] = l := by injection h
      subst hl
      obtain ⟨hp, hiou, _, hpos, _⟩ :=
        bestPersonLoop_some it.box 0 persons acc p hb hacc
      constructor
      · intro _
        exact ⟨p, hp, acc.1, hiou, hpos⟩
      · intro _
        exact ⟨(p.id, it), by simp⟩
    | none =>
      rw [hacc] at h
      have hl : ([] : List (Nat × Detection)) = l := by injection h
      subst hl
      have hno := bestPersonLoop_none it.box 0 persons acc hb hacc
      constructor
      · rintro ⟨pr, hpr⟩
        cases hpr
      · rintro ⟨p, hp, v, hv, hvpos⟩
        exact absurd ⟨hvpos, hvpos.le⟩ (hno p hp v hv)

theorem c6_zero_threshold_requires_positive_iou_witness :
    (∃ pr, pr ∈ [((1 : Nat), (⟨"Hardhat", ⟨0, 0, 4, 4⟩, 1⟩ : Detection))]) ↔
      ∃ p ∈ [(⟨1, ⟨"Person", ⟨0, 0, 10, 10⟩, 1⟩⟩ : TrackedPerson)], ∃ v,
        calculate_iou p.det.box (⟨0, 0, 4, 4⟩ : Box) = some v ∧ 0 < v :=
  c6_zero_threshold_requires_positive_iou
    [⟨1, ⟨"Person", ⟨0, 0, 10, 10⟩, 1⟩⟩] ⟨"Hardhat", ⟨0, 0, 4, 4⟩, 1⟩
    [(1, ⟨"Hardhat", ⟨0, 0, 4, 4⟩, 1⟩)] (by with_unfolding_all decide)

/-- C9 counterexample: a detection whose class label is not `"Person"` but
also not a `PPE_WEIGHTS` key (here `"NO-Hardhat"`) appears in neither split:
the equipment list returned for the frame is empty, although the claim says
every non-`"Person"` detection appears in it. -/
theorem c9_unknown_class_counterexample :
    ("NO-Hardhat" : String) ≠ "Person" ∧
    process_frame ⟨0, []⟩ 0 [⟨"NO-Hardhat", ⟨0, 0, 10, 10⟩, 1⟩] =
      some (⟨0, []⟩, ⟨[], [], []⟩) :=
  ⟨by decide, by with_unfolding_all decide⟩

/-- C9 (amended): per frame the detections are split purely by class label,
but the equipment side keeps exactly the detections whose class label is a
key of `PPE_WEIGHTS` (not every non-`"Person"` detection): the returned
`ppe_items` is the subsequence of the frame's detections with
weight-table classes, unchanged and in order; detections outside both
vocabularies are dropped. -/
theorem c9_ppe_split_weights_filter :
    ∀ (s : TrackerState) (now : ℚ) (dets : List Detection) (s1 : TrackerState)
      (res : FrameResult),
      process_frame s now dets = some (s1, res) →
      List.Sublist res.ppe_items dets ∧
      (∀ d, d ∈ res.ppe_items ↔
        d ∈ dets ∧ (PPE_WEIGHTS.lookup d.cls).isSome = true) := by
  intro s now dets s1 res h
  simp only [process_frame] at h
  cases ha : assign_ppe_to_persons
      (track_persons s now (dets.filter (fun d => d.cls = "Person"))).2
      (dets.filter (fun d => (PPE_WEIGHTS.lookup d.cls).isSome)) IOU_THRESHOLD with
  | none =>
    rw [ha] at h
    cases h
  | some assigned =>
    rw [ha] at h
    have h3 : ((track_persons s now (dets.filter (fun d => d.cls = "Person"))).1,
        (⟨(track_persons s now (dets.filter (fun d => d.cls = "Person"))).2,
          dets.filter (fun d => (PPE_WEIGHTS.lookup d.cls).isSome),
          calculate_ppe_scores
            (track_persons s now (dets.filter (fun d => d.cls = "Person"))).2
            assigned PPE_WEIGHTS⟩ : FrameResult)) = (s1, res) := by
      injection h
    have hres : res = ⟨(track_persons s now (dets.filter (fun d => d.cls = "Person"))).2,
        dets.filter (fun d => (PPE_WEIGHTS.lookup d.cls).isSome),
        calculate_ppe_scores
          (track_persons s now (dets.filter (fun d => d.cls = "Person"))).2
          assigned PPE_WEIGHTS⟩ := (congrArg Prod.snd h3).symm
    rw [hres]
    constructor
    · exact List.filter_sublist dets
    · intro d
      simp [List.mem_filter]

theorem c9_ppe_split_weights_filter_witness :
    List.Sublist
      ((⟨[⟨1, ⟨"Person", ⟨0, 0, 10, 10⟩, 1⟩⟩], [⟨"Hardhat", ⟨2, 2, 6, 6⟩, 1⟩],
          [(1, 40)]⟩ : FrameResult)).ppe_items
      [⟨"Person", ⟨0, 0, 10, 10⟩, 1⟩, ⟨"Hardhat", ⟨2, 2, 6, 6⟩, 1⟩] :=
  (c9_ppe_split_weights_filter ⟨0, []⟩ 0
    [⟨"Person", ⟨0, 0, 10, 10⟩, 1⟩, ⟨"Hardhat", ⟨2, 2, 6, 6⟩, 1⟩]
    ⟨1, [(1, ⟨(5, 5), 0⟩)]⟩
    ⟨[⟨1, ⟨"Person", ⟨0, 0, 10, 10⟩, 1⟩⟩], [⟨"Hardhat", ⟨2, 2, 6, 6⟩, 1⟩], [(1, 40)]⟩
    (by with_unfolding_all decide)).1
